import Mathlib

/-!
Shallow embedding of `src/args.rs` of the `bootimage` repository: the
command classifier (`parse_args`) and the build-argument parser
(`parse_build_args`), together with the `Args` bundle and its two
post-construction mutators (`set_target`, `set_bin_name`).

Modelling conventions:
* Rust panics (`assert!`, `assert_eq!`, `expect`) are modelled as the
  `Except Err` error monad, with the fatal-error taxonomy named by the
  specification (`DuplicateOption`, `InvalidPath`, `IllegalCombination`,
  `AlreadySet`).
* `Path::canonicalize` touches the filesystem, so the parser is
  parameterised by a function `canon : String → Option String`; `none`
  models canonicalisation failure (the `expect "--manifest-path invalid"`
  panic, i.e. `InvalidPath`).
* `str::starts_with` and `str::trim_left_matches` are embedded on the
  character data of the strings; note that Rust's `trim_left_matches`
  removes the pattern *repeatedly* from the front.
-/

namespace Bootimage

/-- The fatal-error taxonomy of the parser (spec section 7). -/
inductive Err where
  | DuplicateOption
  | InvalidPath
  | IllegalCombination
  | AlreadySet
deriving DecidableEq, Repr

/-- The parsed option bundle (struct `Args` in `args.rs`).  `manifest_path`
holds the canonicalised path as produced by the `canon` parameter. -/
structure Args where
  cargo_args : List String
  run_args : List String
  manifest_path : Option String
  bin_name : Option String
  target : Option String
  release : Bool
deriving DecidableEq, Repr

/-- The tagged result of parsing the argument vector (enum `Command`). -/
inductive Command where
  | Build (args : Args)
  | Run (args : Args)
  | Test (args : Args)
  | BuildHelp
  | RunHelp
  | TestHelp
  | Help
  | Version
  | NoSubcommand
deriving DecidableEq, Repr

/-- Embedding of Rust `str::starts_with`: the character data of `pat` is a
initial segment of the character data of `s`. -/
def starts_with (s pat : String) : Bool :=
  pat.data.isPrefixOf s.data

/-- Repeatedly remove `pat` from the front of a character list, as Rust's
`str::trim_left_matches` does (it strips *all* leading matches).  The `Nat`
argument is fuel; each successful strip removes at least one character, so
fuel `s.length` is always enough. -/
def trimLeft (pat : List Char) : Nat → List Char → List Char
  | 0, s => s
  | n + 1, s =>
    if pat ≠ [] ∧ pat.isPrefixOf s then
      trimLeft pat n (s.drop pat.length)
    else
      s

/-- Embedding of Rust `str::trim_left_matches` on strings. -/
def trim_left_matches (pat s : String) : String :=
  ⟨trimLeft pat.data s.data.length s.data⟩

/-- The scan state of `parse_build_args`: the four optional slots, the two
output sequences, and the run-args flag (lines 36-42 of `args.rs`). -/
structure ScanState where
  manifest_path : Option String
  bin_name : Option String
  target : Option String
  release : Option Bool
  cargo_args : List String
  run_args : List String
  run_args_started : Bool
deriving DecidableEq, Repr

/-- The initial scan state of `parse_build_args`. -/
def initState : ScanState :=
  { manifest_path := none, bin_name := none, target := none, release := none
    cargo_args := [], run_args := [], run_args_started := false }

/-- The inner `set` helper of `parse_build_args` (lines 44-50): replaces the
slot with `value` and fails fatally if the slot already held a value
("multiple arguments of same type provided", i.e. `DuplicateOption`). -/
def set {T : Type} (arg : Option T) (value : Option T) : Except Err (Option T) :=
  match arg with
  | some _ => .error .DuplicateOption
  | none => .ok value

/-- Outcome of the token scan: either the loop ran to the end of the stream
(`done`), or an early `return` fired (`abort`, for `--help`/`-h`/`--version`). -/
inductive ScanRes where
  | done (st : ScanState)
  | abort (c : Command)
deriving DecidableEq, Repr

/-- The token scan of `parse_build_args` (the `while let` loop, lines 53-128),
one token at a time, with the space-separated option forms consuming the next
token of the stream as their value. -/
def scanList (canon : String → Option String) : ScanState → List String → Except Err ScanRes
  | st, [] => .ok (.done st)
  | st, arg :: rest =>
    if st.run_args_started then
      scanList canon { st with run_args := st.run_args ++ [arg] } rest
    else if arg = "--help" ∨ arg = "-h" then
      .ok (.abort .BuildHelp)
    else if arg = "--version" then
      .ok (.abort .Version)
    else if arg = "--bin" then
      match rest with
      | [] => do
        let b ← set st.bin_name none
        scanList canon { st with bin_name := b, cargo_args := st.cargo_args ++ ["--bin"] } []
      | next :: rest' => do
        let b ← set st.bin_name (some next)
        scanList canon
          { st with bin_name := b, cargo_args := st.cargo_args ++ ["--bin", next] } rest'
    else if starts_with arg "--bin=" then do
      let b ← set st.bin_name (some (trim_left_matches "--bin=" arg))
      scanList canon { st with bin_name := b, cargo_args := st.cargo_args ++ [arg] } rest
    else if arg = "--target" then
      match rest with
      | [] => do
        let t ← set st.target none
        scanList canon { st with target := t, cargo_args := st.cargo_args ++ ["--target"] } []
      | next :: rest' => do
        let t ← set st.target (some next)
        scanList canon
          { st with target := t, cargo_args := st.cargo_args ++ ["--target", next] } rest'
    else if starts_with arg "--target=" then do
      let t ← set st.target (some (trim_left_matches "--target=" arg))
      scanList canon { st with target := t, cargo_args := st.cargo_args ++ [arg] } rest
    else if arg = "--manifest-path" then
      match rest with
      | [] => do
        let m ← set st.manifest_path none
        scanList canon
          { st with manifest_path := m, cargo_args := st.cargo_args ++ ["--manifest-path"] } []
      | next :: rest' =>
        match canon next with
        | none => .error .InvalidPath
        | some p => do
          let m ← set st.manifest_path (some p)
          scanList canon
            { st with manifest_path := m,
                      cargo_args := st.cargo_args ++ ["--manifest-path", next] } rest'
    else if starts_with arg "--manifest-path=" then
      match canon (trim_left_matches "--manifest-path=" arg) with
      | none => .error .InvalidPath
      | some p => do
        let m ← set st.manifest_path (some p)
        scanList canon { st with manifest_path := m, cargo_args := st.cargo_args ++ [arg] } rest
    else if arg = "--release" then do
      let r ← set st.release (some true)
      scanList canon { st with release := r, cargo_args := st.cargo_args ++ ["--release"] } rest
    else if arg = "--" then
      scanList canon { st with run_args_started := true } rest
    else
      scanList canon { st with cargo_args := st.cargo_args ++ [arg] } rest
termination_by structural _ l => l

/-- Assembling the final `Args` value from the scan state (lines 131-138);
`release` defaults to `false` when the slot was never set. -/
def mkArgs (st : ScanState) : Args :=
  { cargo_args := st.cargo_args, run_args := st.run_args
    manifest_path := st.manifest_path, bin_name := st.bin_name
    target := st.target, release := st.release.getD false }

/-- Function `parse_build_args` (lines 32-139): scan the token stream, then either
return the early-exit command or wrap the collected state in `Build`. -/
def parse_build_args (canon : String → Option String) (l : List String) :
    Except Err Command :=
  match scanList canon initState l with
  | .ok (.done st) => .ok (.Build (mkArgs st))
  | .ok (.abort c) => .ok c
  | .error e => .error e

/-- Function `parse_args` (lines 5-30): dispatch on the first token of the argument
vector (program name already stripped). -/
def parse_args (canon : String → Option String) (l : List String) :
    Except Err Command :=
  match l with
  | [] => .ok .NoSubcommand
  | first :: rest =>
    if first = "build" then
      parse_build_args canon rest
    else if first = "run" then
      match parse_build_args canon rest with
      | .ok (.Build a) => .ok (.Run a)
      | .ok .BuildHelp => .ok .RunHelp
      | r => r
    else if first = "test" then
      match parse_build_args canon rest with
      | .ok (.Build a) =>
        match a.bin_name with
        | some _ => .error .IllegalCombination
        | none => .ok (.Test a)
      | .ok .BuildHelp => .ok .TestHelp
      | r => r
    else if first = "--help" ∨ first = "-h" then
      .ok .Help
    else if first = "--version" then
      .ok .Version
    else
      .ok .NoSubcommand

/-- Method `Args::set_target` (lines 174-179): `assert!(self.target.is_none())`,
then store the value and append `--target value` to `cargo_args`. -/
def set_target (a : Args) (target : String) : Except Err Args :=
  match a.target with
  | some _ => .error .AlreadySet
  | none =>
    .ok { a with target := some target, cargo_args := a.cargo_args ++ ["--target", target] }

/-- Method `Args::set_bin_name` (lines 181-186): `assert!(self.bin_name.is_none())`,
then store the value and append `--bin value` to `cargo_args`. -/
def set_bin_name (a : Args) (bin_name : String) : Except Err Args :=
  match a.bin_name with
  | some _ => .error .AlreadySet
  | none =>
    .ok { a with bin_name := some bin_name,
                 cargo_args := a.cargo_args ++ ["--bin", bin_name] }

/-- The three set-once option kinds whose duplicate supply is fatal. -/
inductive OptKind where
  | bin
  | target
  | manifest
deriving DecidableEq, Repr

/-- The slot of the scan state belonging to an option kind. -/
def slotOf (st : ScanState) : OptKind → Option String
  | .bin => st.bin_name
  | .target => st.target
  | .manifest => st.manifest_path

/-- Recognising the tokens that address an option kind: the bare flag or the
`--opt=value` spelling. -/
def isOptTok : OptKind → String → Bool
  | .bin, t => t == "--bin" || starts_with t "--bin="
  | .target, t => t == "--target" || starts_with t "--target="
  | .manifest, t => t == "--manifest-path" || starts_with t "--manifest-path="

/-- Number of tokens of a stream that address an option kind (either form). -/
def nOcc (k : OptKind) (l : List String) : Nat :=
  l.countP (fun t => isOptTok k t)

/-- Number of `--release` tokens of a stream. -/
def nRel (l : List String) : Nat :=
  l.countP (fun t => t == "--release")

section StringLemmas

lemma isPrefixOf_eq (l1 l2 : List Char) : l1.isPrefixOf l2 = true ↔ ∃ t, l1 ++ t = l2 := by
  induction l1 generalizing l2 with
  | nil => simp [List.isPrefixOf]
  | cons a l ih =>
    cases l2 with
    | nil => simp [List.isPrefixOf]
    | cons b m =>
      simp only [List.isPrefixOf, Bool.and_eq_true, beq_iff_eq, ih, List.cons_append,
        List.cons.injEq]
      constructor
      · rintro ⟨rfl, t, rfl⟩
        exact ⟨t, rfl, rfl⟩
      · rintro ⟨t, rfl, rfl⟩
        exact ⟨rfl, t, rfl⟩

lemma starts_with_iff (t p : String) : starts_with t p = true ↔ ∃ u, p.data ++ u = t.data := by
  rw [starts_with, isPrefixOf_eq]

lemma starts_with_append (p v : String) : starts_with (p ++ v) p = true := by
  rw [starts_with_iff]
  exact ⟨v.data, (String.data_append p v).symm⟩

lemma ne_of_starts_with {t p : String} (h : starts_with t p = true) (lit : String)
    (hl : starts_with lit p = false) : t ≠ lit := by
  intro he
  rw [he, hl] at h
  cases h

lemma append_ne_cons3 {c d : Char} (h : c ≠ d) (p q u v : List Char) :
    ('-' :: '-' :: c :: p) ++ u ≠ ('-' :: '-' :: d :: q) ++ v := by
  intro he
  simp only [List.cons_append] at he
  injection he with h1 he
  injection he with h2 he
  injection he with h3 he
  exact h h3

lemma sw_target_not_bin {t : String} (h : starts_with t "--target=" = true) :
    starts_with t "--bin=" = false := by
  cases hb : starts_with t "--bin=" with
  | false => rfl
  | true =>
    obtain ⟨u, hu⟩ := (starts_with_iff t "--target=").mp h
    obtain ⟨v, hv⟩ := (starts_with_iff t "--bin=").mp hb
    exact absurd (hu.trans hv.symm) (append_ne_cons3 (by decide) _ _ u v)

lemma sw_manifest_not_bin {t : String} (h : starts_with t "--manifest-path=" = true) :
    starts_with t "--bin=" = false := by
  cases hb : starts_with t "--bin=" with
  | false => rfl
  | true =>
    obtain ⟨u, hu⟩ := (starts_with_iff t "--manifest-path=").mp h
    obtain ⟨v, hv⟩ := (starts_with_iff t "--bin=").mp hb
    exact absurd (hu.trans hv.symm) (append_ne_cons3 (by decide) _ _ u v)

lemma sw_manifest_not_target {t : String} (h : starts_with t "--manifest-path=" = true) :
    starts_with t "--target=" = false := by
  cases hb : starts_with t "--target=" with
  | false => rfl
  | true =>
    obtain ⟨u, hu⟩ := (starts_with_iff t "--manifest-path=").mp h
    obtain ⟨v, hv⟩ := (starts_with_iff t "--target=").mp hb
    exact absurd (hu.trans hv.symm) (append_ne_cons3 (by decide) _ _ u v)

lemma trimLeft_no (pat : List Char) (n : Nat) (s : List Char)
    (h : pat.isPrefixOf s = false) : trimLeft pat n s = s := by
  cases n <;> simp [trimLeft, h]

lemma trimLeft_app (pat : List Char) (hne : pat ≠ []) (n : Nat) (v : List Char) :
    trimLeft pat (n + 1) (pat ++ v) = trimLeft pat n v := by
  rw [trimLeft, if_pos ⟨hne, (isPrefixOf_eq pat (pat ++ v)).mpr ⟨v, rfl⟩⟩,
    List.drop_left]

lemma trim_left_matches_append (p v : String) (hp : p.data ≠ [])
    (hv : starts_with v p = false) : trim_left_matches p (p ++ v) = v := by
  rw [trim_left_matches]
  have hd : (p ++ v).data = p.data ++ v.data := String.data_append p v
  rw [hd, List.length_append]
  obtain ⟨c, cs, hcs⟩ : ∃ c cs, p.data = c :: cs := by
    cases hpd : p.data with
    | nil => exact absurd hpd hp
    | cons c cs => exact ⟨c, cs, rfl⟩
  have hlen : (p.data).length + v.data.length = ((p.data).length - 1 + v.data.length) + 1 := by
    rw [hcs]
    simp only [List.length_cons]
    omega
  rw [hlen, trimLeft_app p.data hp, trimLeft_no p.data _ v.data hv]

end StringLemmas

section StepLemmas

@[simp] lemma ok_bind {α β : Type} (a : α) (f : α → Except Err β) :
    (Except.ok a >>= f) = f a := rfl

@[simp] lemma error_bind {α β : Type} (e : Err) (f : α → Except Err β) :
    ((Except.error e : Except Err α) >>= f) = Except.error e := rfl

@[simp] lemma sw_target_bin : starts_with "--target" "--bin=" = false := by decide
@[simp] lemma sw_manifest_bin : starts_with "--manifest-path" "--bin=" = false := by decide
@[simp] lemma sw_manifest_target : starts_with "--manifest-path" "--target=" = false := by decide
@[simp] lemma sw_release_bin : starts_with "--release" "--bin=" = false := by decide
@[simp] lemma sw_release_target : starts_with "--release" "--target=" = false := by decide
@[simp] lemma sw_release_manifest : starts_with "--release" "--manifest-path=" = false := by decide
@[simp] lemma sw_sep_bin : starts_with "--" "--bin=" = false := by decide
@[simp] lemma sw_sep_target : starts_with "--" "--target=" = false := by decide
@[simp] lemma sw_sep_manifest : starts_with "--" "--manifest-path=" = false := by decide

variable (canon : String → Option String)

lemma scanList_started (l : List String) (mp bn tg : Option String)
    (rl : Option Bool) (ca ra : List String) :
    scanList canon ⟨mp, bn, tg, rl, ca, ra, true⟩ l =
      .ok (.done ⟨mp, bn, tg, rl, ca, ra ++ l, true⟩) := by
  induction l generalizing ra with
  | nil => simp [scanList]
  | cons a l ih =>
    conv_lhs => rw [scanList.eq_def]
    simp only [if_pos rfl, ih]
    simp

variable (mp bn tg : Option String) (rl : Option Bool) (ca ra : List String)

lemma step_help (l : List String) :
    scanList canon ⟨mp, bn, tg, rl, ca, ra, false⟩ ("--help" :: l) = .ok (.abort .BuildHelp) := by
  conv_lhs => rw [scanList.eq_def]
  simp

lemma step_h (l : List String) :
    scanList canon ⟨mp, bn, tg, rl, ca, ra, false⟩ ("-h" :: l) = .ok (.abort .BuildHelp) := by
  conv_lhs => rw [scanList.eq_def]
  simp

lemma step_version (l : List String) :
    scanList canon ⟨mp, bn, tg, rl, ca, ra, false⟩ ("--version" :: l) = .ok (.abort .Version) := by
  conv_lhs => rw [scanList.eq_def]
  simp

lemma step_sep (l : List String) :
    scanList canon ⟨mp, bn, tg, rl, ca, ra, false⟩ ("--" :: l) =
      .ok (.done ⟨mp, bn, tg, rl, ca, ra ++ l, true⟩) := by
  conv_lhs => rw [scanList.eq_def]
  simp [scanList_started]

lemma step_bin_nil :
    scanList canon ⟨mp, none, tg, rl, ca, ra, false⟩ ["--bin"] =
      .ok (.done ⟨mp, none, tg, rl, ca ++ ["--bin"], ra, false⟩) := by
  conv_lhs => rw [scanList.eq_def]
  simp [set, scanList]

lemma step_bin_cons (t : String) (l : List String) :
    scanList canon ⟨mp, none, tg, rl, ca, ra, false⟩ ("--bin" :: t :: l) =
      scanList canon ⟨mp, some t, tg, rl, ca ++ ["--bin", t], ra, false⟩ l := by
  conv_lhs => rw [scanList.eq_def]
  simp [set]

lemma step_bin_dup (v : String) (l : List String) :
    scanList canon ⟨mp, some v, tg, rl, ca, ra, false⟩ ("--bin" :: l) =
      .error .DuplicateOption := by
  conv_lhs => rw [scanList.eq_def]
  cases l <;> simp [set]

lemma step_target_nil :
    scanList canon ⟨mp, bn, none, rl, ca, ra, false⟩ ["--target"] =
      .ok (.done ⟨mp, bn, none, rl, ca ++ ["--target"], ra, false⟩) := by
  conv_lhs => rw [scanList.eq_def]
  simp [set, scanList]

lemma step_target_cons (t : String) (l : List String) :
    scanList canon ⟨mp, bn, none, rl, ca, ra, false⟩ ("--target" :: t :: l) =
      scanList canon ⟨mp, bn, some t, rl, ca ++ ["--target", t], ra, false⟩ l := by
  conv_lhs => rw [scanList.eq_def]
  simp [set]

lemma step_target_dup (v : String) (l : List String) :
    scanList canon ⟨mp, bn, some v, rl, ca, ra, false⟩ ("--target" :: l) =
      .error .DuplicateOption := by
  conv_lhs => rw [scanList.eq_def]
  cases l <;> simp [set]

lemma step_manifest_nil :
    scanList canon ⟨none, bn, tg, rl, ca, ra, false⟩ ["--manifest-path"] =
      .ok (.done ⟨none, bn, tg, rl, ca ++ ["--manifest-path"], ra, false⟩) := by
  conv_lhs => rw [scanList.eq_def]
  simp [set, scanList]

lemma step_manifest_cons (t p : String) (l : List String) (hc : canon t = some p) :
    scanList canon ⟨none, bn, tg, rl, ca, ra, false⟩ ("--manifest-path" :: t :: l) =
      scanList canon ⟨some p, bn, tg, rl, ca ++ ["--manifest-path", t], ra, false⟩ l := by
  conv_lhs => rw [scanList.eq_def]
  simp [set, hc]

lemma step_manifest_cons_fail (t : String) (l : List String) (hc : canon t = none) :
    scanList canon ⟨mp, bn, tg, rl, ca, ra, false⟩ ("--manifest-path" :: t :: l) =
      .error .InvalidPath := by
  conv_lhs => rw [scanList.eq_def]
  simp [set, hc]

lemma step_manifest_dup (v : String) (l : List String)
    (hc : ∀ s, (canon s).isSome = true) :
    scanList canon ⟨some v, bn, tg, rl, ca, ra, false⟩ ("--manifest-path" :: l) =
      .error .DuplicateOption := by
  conv_lhs => rw [scanList.eq_def]
  cases l with
  | nil => simp [set]
  | cons t l =>
    obtain ⟨p, hp⟩ := Option.isSome_iff_exists.mp (hc t)
    simp [set, hp]

lemma step_bineq (arg : String) (h : starts_with arg "--bin=" = true) (l : List String) :
    scanList canon ⟨mp, none, tg, rl, ca, ra, false⟩ (arg :: l) =
      scanList canon
        ⟨mp, some (trim_left_matches "--bin=" arg), tg, rl, ca ++ [arg], ra, false⟩ l := by
  have h1 := ne_of_starts_with h "--help" (by decide)
  have h2 := ne_of_starts_with h "-h" (by decide)
  have h3 := ne_of_starts_with h "--version" (by decide)
  have h4 := ne_of_starts_with h "--bin" (by decide)
  conv_lhs => rw [scanList.eq_def]
  simp [set, h, h1, h2, h3, h4]

lemma step_bineq_dup (arg v : String) (h : starts_with arg "--bin=" = true)
    (l : List String) :
    scanList canon ⟨mp, some v, tg, rl, ca, ra, false⟩ (arg :: l) =
      .error .DuplicateOption := by
  have h1 := ne_of_starts_with h "--help" (by decide)
  have h2 := ne_of_starts_with h "-h" (by decide)
  have h3 := ne_of_starts_with h "--version" (by decide)
  have h4 := ne_of_starts_with h "--bin" (by decide)
  conv_lhs => rw [scanList.eq_def]
  simp [set, h, h1, h2, h3, h4]

lemma step_targeteq (arg : String) (h : starts_with arg "--target=" = true)
    (l : List String) :
    scanList canon ⟨mp, bn, none, rl, ca, ra, false⟩ (arg :: l) =
      scanList canon
        ⟨mp, bn, some (trim_left_matches "--target=" arg), rl, ca ++ [arg], ra, false⟩ l := by
  have h1 := ne_of_starts_with h "--help" (by decide)
  have h2 := ne_of_starts_with h "-h" (by decide)
  have h3 := ne_of_starts_with h "--version" (by decide)
  have h4 := ne_of_starts_with h "--bin" (by decide)
  have h5 := sw_target_not_bin h
  have h6 := ne_of_starts_with h "--target" (by decide)
  conv_lhs => rw [scanList.eq_def]
  simp [set, h, h1, h2, h3, h4, h5, h6]

lemma step_targeteq_dup (arg v : String) (h : starts_with arg "--target=" = true)
    (l : List String) :
    scanList canon ⟨mp, bn, some v, rl, ca, ra, false⟩ (arg :: l) =
      .error .DuplicateOption := by
  have h1 := ne_of_starts_with h "--help" (by decide)
  have h2 := ne_of_starts_with h "-h" (by decide)
  have h3 := ne_of_starts_with h "--version" (by decide)
  have h4 := ne_of_starts_with h "--bin" (by decide)
  have h5 := sw_target_not_bin h
  have h6 := ne_of_starts_with h "--target" (by decide)
  conv_lhs => rw [scanList.eq_def]
  simp [set, h, h1, h2, h3, h4, h5, h6]

lemma step_manifesteq (arg p : String) (h : starts_with arg "--manifest-path=" = true)
    (hc : canon (trim_left_matches "--manifest-path=" arg) = some p) (l : List String) :
    scanList canon ⟨none, bn, tg, rl, ca, ra, false⟩ (arg :: l) =
      scanList canon ⟨some p, bn, tg, rl, ca ++ [arg], ra, false⟩ l := by
  have h1 := ne_of_starts_with h "--help" (by decide)
  have h2 := ne_of_starts_with h "-h" (by decide)
  have h3 := ne_of_starts_with h "--version" (by decide)
  have h4 := ne_of_starts_with h "--bin" (by decide)
  have h5 := sw_manifest_not_bin h
  have h6 := ne_of_starts_with h "--target" (by decide)
  have h7 := sw_manifest_not_target h
  have h8 := ne_of_starts_with h "--manifest-path" (by decide)
  conv_lhs => rw [scanList.eq_def]
  simp [set, h, hc, h1, h2, h3, h4, h5, h6, h7, h8]

lemma step_manifesteq_fail (arg : String) (h : starts_with arg "--manifest-path=" = true)
    (hc : canon (trim_left_matches "--manifest-path=" arg) = none) (l : List String) :
    scanList canon ⟨mp, bn, tg, rl, ca, ra, false⟩ (arg :: l) = .error .InvalidPath := by
  have h1 := ne_of_starts_with h "--help" (by decide)
  have h2 := ne_of_starts_with h "-h" (by decide)
  have h3 := ne_of_starts_with h "--version" (by decide)
  have h4 := ne_of_starts_with h "--bin" (by decide)
  have h5 := sw_manifest_not_bin h
  have h6 := ne_of_starts_with h "--target" (by decide)
  have h7 := sw_manifest_not_target h
  have h8 := ne_of_starts_with h "--manifest-path" (by decide)
  conv_lhs => rw [scanList.eq_def]
  simp [set, h, hc, h1, h2, h3, h4, h5, h6, h7, h8]

lemma step_manifesteq_dup (arg v p : String)
    (h : starts_with arg "--manifest-path=" = true)
    (hc : canon (trim_left_matches "--manifest-path=" arg) = some p) (l : List String) :
    scanList canon ⟨some v, bn, tg, rl, ca, ra, false⟩ (arg :: l) =
      .error .DuplicateOption := by
  have h1 := ne_of_starts_with h "--help" (by decide)
  have h2 := ne_of_starts_with h "-h" (by decide)
  have h3 := ne_of_starts_with h "--version" (by decide)
  have h4 := ne_of_starts_with h "--bin" (by decide)
  have h5 := sw_manifest_not_bin h
  have h6 := ne_of_starts_with h "--target" (by decide)
  have h7 := sw_manifest_not_target h
  have h8 := ne_of_starts_with h "--manifest-path" (by decide)
  conv_lhs => rw [scanList.eq_def]
  simp [set, h, hc, h1, h2, h3, h4, h5, h6, h7, h8]

lemma step_pass (arg : String)
    (h1 : arg ≠ "--help") (h2 : arg ≠ "-h") (h3 : arg ≠ "--version")
    (h4 : arg ≠ "--bin") (h5 : starts_with arg "--bin=" = false)
    (h6 : arg ≠ "--target") (h7 : starts_with arg "--target=" = false)
    (h8 : arg ≠ "--manifest-path") (h9 : starts_with arg "--manifest-path=" = false)
    (h10 : arg ≠ "--release") (h11 : arg ≠ "--") (l : List String) :
    scanList canon ⟨mp, bn, tg, rl, ca, ra, false⟩ (arg :: l) =
      scanList canon ⟨mp, bn, tg, rl, ca ++ [arg], ra, false⟩ l := by
  conv_lhs => rw [scanList.eq_def]
  simp [h1, h2, h3, h4, h5, h6, h7, h8, h9, h10, h11]

lemma step_release (l : List String) :
    scanList canon ⟨mp, bn, tg, none, ca, ra, false⟩ ("--release" :: l) =
      scanList canon ⟨mp, bn, tg, some true, ca ++ ["--release"], ra, false⟩ l := by
  conv_lhs => rw [scanList.eq_def]
  simp [set]

lemma step_release_dup (b : Bool) (l : List String) :
    scanList canon ⟨mp, bn, tg, some b, ca, ra, false⟩ ("--release" :: l) =
      .error .DuplicateOption := by
  conv_lhs => rw [scanList.eq_def]
  simp [set]

end StepLemmas

section ScanSuccess

lemma nOcc_cons (k : OptKind) (a : String) (l : List String) :
    nOcc k (a :: l) = nOcc k l + if isOptTok k a = true then 1 else 0 := by
  simp [nOcc, List.countP_cons]

lemma nOcc_le_cons (k : OptKind) (a : String) (l : List String) :
    nOcc k l ≤ nOcc k (a :: l) := by
  rw [nOcc_cons]
  split <;> omega

lemma nOcc_pos_of (k : OptKind) (a : String) (l : List String)
    (h : isOptTok k a = true) : nOcc k (a :: l) = nOcc k l + 1 := by
  rw [nOcc_cons, if_pos h]

lemma nRel_cons (a : String) (l : List String) :
    nRel (a :: l) = nRel l + if (a == "--release") = true then 1 else 0 := by
  simp [nRel, List.countP_cons]

lemma nRel_le_cons (a : String) (l : List String) : nRel l ≤ nRel (a :: l) := by
  rw [nRel_cons]
  split <;> omega

/-- Auxiliary induction for the pass-through claim: if the stream has no
help/version token, no `--`, at most one token of each set-once option kind
(counting the slot when already filled), at most one `--release`, and every
canonicalisation succeeds, the scan runs to `done` and appends the whole
stream to `cargo_args`. -/
lemma scan_success (canon : String → Option String)
    (hcanon : ∀ s, (canon s).isSome = true) :
    ∀ (n : Nat) (l : List String) (mp bn tg : Option String) (rl : Option Bool)
      (ca ra : List String),
      l.length ≤ n →
      (∀ t ∈ l, t ≠ "--help" ∧ t ≠ "-h" ∧ t ≠ "--version" ∧ t ≠ "--") →
      nOcc .bin l + (if bn.isSome = true then 1 else 0) ≤ 1 →
      nOcc .target l + (if tg.isSome = true then 1 else 0) ≤ 1 →
      nOcc .manifest l + (if mp.isSome = true then 1 else 0) ≤ 1 →
      nRel l + (if rl.isSome = true then 1 else 0) ≤ 1 →
      ∃ st' : ScanState,
        scanList canon ⟨mp, bn, tg, rl, ca, ra, false⟩ l = .ok (.done st') ∧
          st'.cargo_args = ca ++ l := by
  intro n
  induction n with
  | zero =>
    intro l mp bn tg rl ca ra hlen hns hbin htgt hman hrel
    have hl : l = [] := List.eq_nil_of_length_eq_zero (Nat.le_zero.mp hlen)
    subst hl
    exact ⟨⟨mp, bn, tg, rl, ca, ra, false⟩, by simp [scanList], by simp⟩
  | succ n ih =>
    intro l mp bn tg rl ca ra hlen hns hbin htgt hman hrel
    match l with
    | [] => exact ⟨⟨mp, bn, tg, rl, ca, ra, false⟩, by simp [scanList], by simp⟩
    | arg :: rest =>
      obtain ⟨hh1, hh2, hh3, hh4⟩ := hns arg (List.mem_cons_self arg rest)
      by_cases hb : arg = "--bin"
      · subst hb
        have hko : isOptTok .bin "--bin" = true := by decide
        have hbn : bn = none := by
          cases bn with
          | none => rfl
          | some x =>
            rw [nOcc_pos_of _ _ _ hko] at hbin
            simp at hbin
        subst hbn
        match rest with
        | [] =>
          exact ⟨_, step_bin_nil canon mp tg rl ca ra, by simp⟩
        | next :: rest' =>
          rw [step_bin_cons canon mp tg rl ca ra next rest']
          have a1 := nOcc_le_cons .bin next rest'
          rw [nOcc_pos_of _ _ _ hko] at hbin
          have a2 := nOcc_le_cons .target next rest'
          have a3 := nOcc_le_cons .target "--bin" (next :: rest')
          have a4 := nOcc_le_cons .manifest next rest'
          have a5 := nOcc_le_cons .manifest "--bin" (next :: rest')
          have a6 := nRel_le_cons next rest'
          have a7 := nRel_le_cons "--bin" (next :: rest')
          obtain ⟨st', hs, hc⟩ :=
            ih rest' mp (some next) tg rl (ca ++ ["--bin", next]) ra
              (by simp at hlen ⊢; omega)
              (fun t ht => hns t (by simp [ht]))
              (by simp at hbin ⊢; omega)
              (by omega) (by omega) (by omega)
          exact ⟨st', hs, by rw [hc]; simp⟩
      · by_cases hbe : starts_with arg "--bin=" = true
        · have hko : isOptTok .bin arg = true := by simp [isOptTok, hbe]
          have hbn : bn = none := by
            cases bn with
            | none => rfl
            | some x =>
              rw [nOcc_pos_of _ _ _ hko] at hbin
              simp at hbin
          subst hbn
          rw [step_bineq canon mp tg rl ca ra arg hbe rest]
          rw [nOcc_pos_of _ _ _ hko] at hbin
          have a2 := nOcc_le_cons .target arg rest
          have a4 := nOcc_le_cons .manifest arg rest
          have a6 := nRel_le_cons arg rest
          obtain ⟨st', hs, hc⟩ :=
            ih rest mp (some (trim_left_matches "--bin=" arg)) tg rl (ca ++ [arg]) ra
              (by simp at hlen ⊢; omega)
              (fun t ht => hns t (by simp [ht]))
              (by simp at hbin ⊢; omega)
              (by omega) (by omega) (by omega)
          exact ⟨st', hs, by rw [hc]; simp⟩
        · rw [Bool.not_eq_true] at hbe
          by_cases ht : arg = "--target"
          · subst ht
            have hko : isOptTok .target "--target" = true := by decide
            have htg : tg = none := by
              cases tg with
              | none => rfl
              | some x =>
                rw [nOcc_pos_of _ _ _ hko] at htgt
                simp at htgt
            subst htg
            match rest with
            | [] =>
              exact ⟨_, step_target_nil canon mp bn rl ca ra, by simp⟩
            | next :: rest' =>
              rw [step_target_cons canon mp bn rl ca ra next rest']
              have a1 := nOcc_le_cons .target next rest'
              rw [nOcc_pos_of _ _ _ hko] at htgt
              have a2 := nOcc_le_cons .bin next rest'
              have a3 := nOcc_le_cons .bin "--target" (next :: rest')
              have a4 := nOcc_le_cons .manifest next rest'
              have a5 := nOcc_le_cons .manifest "--target" (next :: rest')
              have a6 := nRel_le_cons next rest'
              have a7 := nRel_le_cons "--target" (next :: rest')
              obtain ⟨st', hs, hc⟩ :=
                ih rest' mp bn (some next) rl (ca ++ ["--target", next]) ra
                  (by simp at hlen ⊢; omega)
                  (fun t ht => hns t (by simp [ht]))
                  (by omega)
                  (by simp at htgt ⊢; omega)
                  (by omega) (by omega)
              exact ⟨st', hs, by rw [hc]; simp⟩
          · by_cases hte : starts_with arg "--target=" = true
            · have hko : isOptTok .target arg = true := by simp [isOptTok, hte]
              have htg : tg = none := by
                cases tg with
                | none => rfl
                | some x =>
                  rw [nOcc_pos_of _ _ _ hko] at htgt
                  simp at htgt
              subst htg
              rw [step_targeteq canon mp bn rl ca ra arg hte rest]
              rw [nOcc_pos_of _ _ _ hko] at htgt
              have a2 := nOcc_le_cons .bin arg rest
              have a4 := nOcc_le_cons .manifest arg rest
              have a6 := nRel_le_cons arg rest
              obtain ⟨st', hs, hc⟩ :=
                ih rest mp bn (some (trim_left_matches "--target=" arg)) rl
                  (ca ++ [arg]) ra
                  (by simp at hlen ⊢; omega)
                  (fun t ht => hns t (by simp [ht]))
                  (by omega)
                  (by simp at htgt ⊢; omega)
                  (by omega) (by omega)
              exact ⟨st', hs, by rw [hc]; simp⟩
            · rw [Bool.not_eq_true] at hte
              by_cases hm : arg = "--manifest-path"
              · subst hm
                have hko : isOptTok .manifest "--manifest-path" = true := by decide
                have hmp : mp = none := by
                  cases mp with
                  | none => rfl
                  | some x =>
                    rw [nOcc_pos_of _ _ _ hko] at hman
                    simp at hman
                subst hmp
                match rest with
                | [] =>
                  exact ⟨_, step_manifest_nil canon bn tg rl ca ra, by simp⟩
                | next :: rest' =>
                  obtain ⟨p, hp⟩ := Option.isSome_iff_exists.mp (hcanon next)
                  rw [step_manifest_cons canon bn tg rl ca ra next p rest' hp]
                  have a1 := nOcc_le_cons .manifest next rest'
                  rw [nOcc_pos_of _ _ _ hko] at hman
                  have a2 := nOcc_le_cons .bin next rest'
                  have a3 := nOcc_le_cons .bin "--manifest-path" (next :: rest')
                  have a4 := nOcc_le_cons .target next rest'
                  have a5 := nOcc_le_cons .target "--manifest-path" (next :: rest')
                  have a6 := nRel_le_cons next rest'
                  have a7 := nRel_le_cons "--manifest-path" (next :: rest')
                  obtain ⟨st', hs, hc⟩ :=
                    ih rest' (some p) bn tg rl (ca ++ ["--manifest-path", next]) ra
                      (by simp at hlen ⊢; omega)
                      (fun t ht => hns t (by simp [ht]))
                      (by omega) (by omega)
                      (by simp at hman ⊢; omega)
                      (by omega)
                  exact ⟨st', hs, by rw [hc]; simp⟩
              · by_cases hme : starts_with arg "--manifest-path=" = true
                · have hko : isOptTok .manifest arg = true := by simp [isOptTok, hme]
                  have hmp : mp = none := by
                    cases mp with
                    | none => rfl
                    | some x =>
                      rw [nOcc_pos_of _ _ _ hko] at hman
                      simp at hman
                  subst hmp
                  obtain ⟨p, hp⟩ := Option.isSome_iff_exists.mp
                    (hcanon (trim_left_matches "--manifest-path=" arg))
                  rw [step_manifesteq canon bn tg rl ca ra arg p hme hp rest]
                  rw [nOcc_pos_of _ _ _ hko] at hman
                  have a2 := nOcc_le_cons .bin arg rest
                  have a4 := nOcc_le_cons .target arg rest
                  have a6 := nRel_le_cons arg rest
                  obtain ⟨st', hs, hc⟩ :=
                    ih rest (some p) bn tg rl (ca ++ [arg]) ra
                      (by simp at hlen ⊢; omega)
                      (fun t ht => hns t (by simp [ht]))
                      (by omega) (by omega)
                      (by simp at hman ⊢; omega)
                      (by omega)
                  exact ⟨st', hs, by rw [hc]; simp⟩
                · rw [Bool.not_eq_true] at hme
                  by_cases hr : arg = "--release"
                  · subst hr
                    have hrl : rl = none := by
                      cases rl with
                      | none => rfl
                      | some x =>
                        rw [nRel_cons] at hrel
                        simp at hrel
                    subst hrl
                    rw [step_release canon mp bn tg ca ra rest]
                    rw [nRel_cons] at hrel
                    have a2 := nOcc_le_cons .bin "--release" rest
                    have a4 := nOcc_le_cons .target "--release" rest
                    have a6 := nOcc_le_cons .manifest "--release" rest
                    obtain ⟨st', hs, hc⟩ :=
                      ih rest mp bn tg (some true) (ca ++ ["--release"]) ra
                        (by simp at hlen ⊢; omega)
                        (fun t ht => hns t (by simp [ht]))
                        (by omega) (by omega) (by omega)
                        (by simp at hrel ⊢; omega)
                    exact ⟨st', hs, by rw [hc]; simp⟩
                  · rw [step_pass canon mp bn tg rl ca ra arg hh1 hh2 hh3 hb hbe
                      ht hte hm hme hr hh4 rest]
                    have a2 := nOcc_le_cons .bin arg rest
                    have a4 := nOcc_le_cons .target arg rest
                    have a6 := nOcc_le_cons .manifest arg rest
                    have a8 := nRel_le_cons arg rest
                    obtain ⟨st', hs, hc⟩ :=
                      ih rest mp bn tg rl (ca ++ [arg]) ra
                        (by simp at hlen ⊢; omega)
                        (fun t ht => hns t (by simp [ht]))
                        (by omega) (by omega) (by omega) (by omega)
                    exact ⟨st', hs, by rw [hc]; simp⟩

end ScanSuccess

/-- C1 counterexample: the claim says a stream containing `--release` twice
still parses successfully, but the code routes `--release` through the same
duplicate-checking `set` helper as the other options, so the second
occurrence is a fatal `DuplicateOption` panic. -/
theorem release_twice_fatal_cex :
    parse_args some ["build", "--release", "--release"] = .error .DuplicateOption := rfl

/-- C1 (amended): the first `--release` sets the release slot to `true` and
appends the token to `cargo_args`, but the option is not idempotent: a second
`--release` fails fatally with `DuplicateOption`, exactly like the other
three options. -/
theorem release_flag_behaviour :
    (∀ (canon : String → Option String) (st : ScanState) (rest : List String),
        st.run_args_started = false → st.release = none →
        scanList canon st ("--release" :: rest) =
          scanList canon { st with release := some true,
                                   cargo_args := st.cargo_args ++ ["--release"] } rest) ∧
    (∀ (canon : String → Option String) (st : ScanState) (b : Bool) (rest : List String),
        st.run_args_started = false → st.release = some b →
        scanList canon st ("--release" :: rest) = .error .DuplicateOption) ∧
    parse_args some ["build", "--release"] =
      .ok (.Build ⟨["--release"], [], none, none, none, true⟩) := by
  refine ⟨?_, ?_, rfl⟩
  · intro canon st rest hf hr
    obtain ⟨mp, bn, tg, rl, ca, ra, fl⟩ := st
    cases hf
    cases hr
    exact step_release canon mp bn tg ca ra rest
  · intro canon st b rest hf hr
    obtain ⟨mp, bn, tg, rl, ca, ra, fl⟩ := st
    cases hf
    cases hr
    exact step_release_dup canon mp bn tg ca ra b rest

/-- C1 witness: the amended behaviour at concrete inputs. -/
theorem release_flag_behaviour_witness :
    scanList some initState ["--release"] =
      scanList some { initState with release := some true,
                                     cargo_args := initState.cargo_args ++ ["--release"] } [] ∧
    scanList some ⟨none, none, none, some true, ["--release"], [], false⟩ ["--release"] =
      .error .DuplicateOption :=
  ⟨release_flag_behaviour.1 some initState [] rfl rfl,
   release_flag_behaviour.2.1 some ⟨none, none, none, some true, ["--release"], [], false⟩
     true [] rfl rfl⟩

/-- C3: when the scan is not yet forwarding and meets a bare `--`, the `--`
itself lands in neither output and every later token is appended verbatim to
`run_args` with no interpretation, errors or early returns — including
tokens spelled `--help`, `--bin`, `--release` or a second `--`. -/
theorem run_args_boundary :
    (∀ (canon : String → Option String) (st : ScanState) (suf : List String),
        st.run_args_started = false →
        scanList canon st ("--" :: suf) =
          .ok (.done { st with run_args := st.run_args ++ suf,
                               run_args_started := true })) ∧
    parse_args some ["build", "a", "--", "--help", "--bin", "--release", "--", "x"] =
      .ok (.Build ⟨["a"], ["--help", "--bin", "--release", "--", "x"],
                   none, none, none, false⟩) := by
  refine ⟨?_, rfl⟩
  intro canon st suf hf
  obtain ⟨mp, bn, tg, rl, ca, ra, fl⟩ := st
  cases hf
  exact step_sep canon mp bn tg rl ca ra suf

/-- C3 witness: the boundary behaviour at a concrete input. -/
theorem run_args_boundary_witness :
    scanList some initState ["--", "--help", "--bin", "--"] =
      .ok (.done { initState with run_args := initState.run_args ++ ["--help", "--bin", "--"],
                                  run_args_started := true }) :=
  run_args_boundary.1 some initState ["--help", "--bin", "--"] rfl

/-- C5 counterexample: for the token `--bin=--bin=x` the suffix after the
first `=` is `--bin=x`, but the code's `trim_left_matches` removes the
`--bin=` pattern repeatedly, so `bin_name` becomes `x`, not `--bin=x`. -/
theorem eq_form_repeated_strip_cex :
    parse_args some ["build", "--bin=--bin=x"] =
      .ok (.Build ⟨["--bin=--bin=x"], [], none, some "x", none, false⟩) ∧
    ("x" : String) ≠ "--bin=x" := ⟨rfl, by decide⟩

/-- C5 (amended): a token `--bin=v` (before any `--`) stores as `bin_name`
the token with all leading repetitions of `--bin=` stripped — which equals
the suffix `v` after the first `=` whenever `v` does not itself start with
`--bin=` — and appends the single combined token unchanged to `cargo_args`;
`--bin=x` and `--bin x` then give the identical `bin_name` value `x` with
one combined versus two separate forwarded tokens.  Symmetrically for
`--target=` and, for the canonicalised stored value, `--manifest-path=`. -/
theorem eq_form_value :
    (∀ (canon : String → Option String) (st : ScanState) (v : String) (rest : List String),
        st.run_args_started = false → st.bin_name = none →
        starts_with v "--bin=" = false →
        scanList canon st (("--bin=" ++ v) :: rest) =
          scanList canon { st with bin_name := some v,
                                   cargo_args := st.cargo_args ++ ["--bin=" ++ v] } rest) ∧
    (∀ (canon : String → Option String) (st : ScanState) (v : String) (rest : List String),
        st.run_args_started = false → st.target = none →
        starts_with v "--target=" = false →
        scanList canon st (("--target=" ++ v) :: rest) =
          scanList canon { st with target := some v,
                                   cargo_args := st.cargo_args ++ ["--target=" ++ v] } rest) ∧
    (∀ (canon : String → Option String) (st : ScanState) (v p : String) (rest : List String),
        st.run_args_started = false → st.manifest_path = none →
        starts_with v "--manifest-path=" = false → canon v = some p →
        scanList canon st (("--manifest-path=" ++ v) :: rest) =
          scanList canon { st with manifest_path := some p,
                                   cargo_args := st.cargo_args ++ ["--manifest-path=" ++ v] } rest) ∧
    parse_args some ["build", "--bin=x"] =
      .ok (.Build ⟨["--bin=x"], [], none, some "x", none, false⟩) ∧
    parse_args some ["build", "--bin", "x"] =
      .ok (.Build ⟨["--bin", "x"], [], none, some "x", none, false⟩) := by
  refine ⟨?_, ?_, ?_, rfl, rfl⟩
  · intro canon st v rest hf hbn hv
    obtain ⟨mp, bn, tg, rl, ca, ra, fl⟩ := st
    cases hf
    cases hbn
    rw [step_bineq canon mp tg rl ca ra _ (starts_with_append "--bin=" v) rest,
      trim_left_matches_append "--bin=" v (by decide) hv]
  · intro canon st v rest hf htg hv
    obtain ⟨mp, bn, tg, rl, ca, ra, fl⟩ := st
    cases hf
    cases htg
    rw [step_targeteq canon mp bn rl ca ra _ (starts_with_append "--target=" v) rest,
      trim_left_matches_append "--target=" v (by decide) hv]
  · intro canon st v p rest hf hmp hv hp
    obtain ⟨mp, bn, tg, rl, ca, ra, fl⟩ := st
    cases hf
    cases hmp
    rw [step_manifesteq canon bn tg rl ca ra _ p (starts_with_append "--manifest-path=" v)
      (by rw [trim_left_matches_append "--manifest-path=" v (by decide) hv]; exact hp) rest]

/-- C5 witness: the amended `--bin=` behaviour at a concrete input. -/
theorem eq_form_value_witness :
    scanList some initState [("--bin=" ++ "y")] =
      scanList some { initState with bin_name := some "y",
                                     cargo_args := initState.cargo_args ++ ["--bin=" ++ "y"] } [] :=
  eq_form_value.1 some initState "y" [] rfl rfl (by decide)

/-- C6: under the `test` subcommand, a `Build` parser result with `bin_name`
present fails fatally with `IllegalCombination`; with `bin_name` absent it is
remapped to `Test`, `BuildHelp` is remapped to `TestHelp`, and every other
parser result (`Version` or a fatal error) passes through unchanged. -/
theorem test_subcommand_remap :
    (∀ (canon : String → Option String) (l : List String) (a : Args) (v : String),
        parse_build_args canon l = .ok (.Build a) → a.bin_name = some v →
        parse_args canon ("test" :: l) = .error .IllegalCombination) ∧
    (∀ (canon : String → Option String) (l : List String) (a : Args),
        parse_build_args canon l = .ok (.Build a) → a.bin_name = none →
        parse_args canon ("test" :: l) = .ok (.Test a)) ∧
    (∀ (canon : String → Option String) (l : List String),
        parse_build_args canon l = .ok .BuildHelp →
        parse_args canon ("test" :: l) = .ok .TestHelp) ∧
    (∀ (canon : String → Option String) (l : List String),
        parse_build_args canon l = .ok .Version →
        parse_args canon ("test" :: l) = .ok .Version) ∧
    (∀ (canon : String → Option String) (l : List String) (e : Err),
        parse_build_args canon l = .error e →
        parse_args canon ("test" :: l) = .error e) ∧
    parse_args some ["test", "--bin", "foo"] = .error .IllegalCombination := by
  refine ⟨?_, ?_, ?_, ?_, ?_, rfl⟩
  · intro canon l a v hpb hbin
    simp [parse_args, hpb, hbin]
  · intro canon l a hpb hbin
    simp [parse_args, hpb, hbin]
  · intro canon l hpb
    simp [parse_args, hpb]
  · intro canon l hpb
    simp [parse_args, hpb]
  · intro canon l e hpb
    simp [parse_args, hpb]

/-- C6 witness: the `IllegalCombination` branch at a concrete input. -/
theorem test_subcommand_remap_witness :
    parse_args some ("test" :: ["--bin", "foo"]) = .error .IllegalCombination :=
  test_subcommand_remap.1 some ["--bin", "foo"]
    ⟨["--bin", "foo"], [], none, some "foo", none, false⟩ "foo" rfl rfl

/-- C8: the mutator `set_target` fails fatally with `AlreadySet` when the `target` field
is populated and otherwise stores the value and appends `--target value` to
`cargo_args`; `set_bin_name` satisfies the same contract for `bin_name`, so
two consecutive successful-then-repeated `set_bin_name` calls fail. -/
theorem mutator_contracts :
    (∀ (a : Args) (v w : String), a.target = some w →
        set_target a v = .error .AlreadySet) ∧
    (∀ (a : Args) (v : String), a.target = none →
        set_target a v = .ok { a with target := some v,
                                      cargo_args := a.cargo_args ++ ["--target", v] }) ∧
    (∀ (a : Args) (v w : String), a.bin_name = some w →
        set_bin_name a v = .error .AlreadySet) ∧
    (∀ (a : Args) (v : String), a.bin_name = none →
        set_bin_name a v = .ok { a with bin_name := some v,
                                        cargo_args := a.cargo_args ++ ["--bin", v] }) ∧
    (∀ (a a2 : Args) (v w : String), set_bin_name a v = .ok a2 →
        set_bin_name a2 w = .error .AlreadySet) := by
  refine ⟨?_, ?_, ?_, ?_, ?_⟩
  · intro a v w h
    simp [set_target, h]
  · intro a v h
    simp [set_target, h]
  · intro a v w h
    simp [set_bin_name, h]
  · intro a v h
    simp [set_bin_name, h]
  · intro a a2 v w h
    cases hb : a.bin_name with
    | some x => simp [set_bin_name, hb] at h
    | none =>
      simp [set_bin_name, hb] at h
      subst h
      simp [set_bin_name]

/-- C8 witness: the mutator contract at concrete inputs. -/
theorem mutator_contracts_witness :
    set_target ⟨[], [], none, none, some "t", false⟩ "u" = .error .AlreadySet ∧
    set_bin_name ⟨[], [], none, none, none, false⟩ "a" =
      .ok { (⟨[], [], none, none, none, false⟩ : Args) with
              bin_name := some "a", cargo_args := [] ++ ["--bin", "a"] } :=
  ⟨mutator_contracts.1 ⟨[], [], none, none, some "t", false⟩ "u" "t" rfl,
   mutator_contracts.2.2.2.1 ⟨[], [], none, none, none, false⟩ "a" rfl⟩

/-- C9: before any `--`, the space-separated forms consume the immediately
following token as their value unconditionally, even when it is itself a
recognized option or `--`; in particular `--bin --` yields
`bin_name = some "--"` with no run-argument switch, and `--bin --release`
yields `bin_name = some "--release"` with `release` still `false`. -/
theorem space_form_unconditional_value :
    (∀ (canon : String → Option String) (st : ScanState) (t : String) (rest : List String),
        st.run_args_started = false → st.bin_name = none →
        scanList canon st ("--bin" :: t :: rest) =
          scanList canon { st with bin_name := some t,
                                   cargo_args := st.cargo_args ++ ["--bin", t] } rest) ∧
    (∀ (canon : String → Option String) (st : ScanState) (t : String) (rest : List String),
        st.run_args_started = false → st.target = none →
        scanList canon st ("--target" :: t :: rest) =
          scanList canon { st with target := some t,
                                   cargo_args := st.cargo_args ++ ["--target", t] } rest) ∧
    (∀ (canon : String → Option String) (st : ScanState) (t p : String) (rest : List String),
        st.run_args_started = false → st.manifest_path = none → canon t = some p →
        scanList canon st ("--manifest-path" :: t :: rest) =
          scanList canon { st with manifest_path := some p,
                                   cargo_args := st.cargo_args ++ ["--manifest-path", t] } rest) ∧
    parse_args some ["build", "--bin", "--"] =
      .ok (.Build ⟨["--bin", "--"], [], none, some "--", none, false⟩) ∧
    parse_args some ["build", "--bin", "--release"] =
      .ok (.Build ⟨["--bin", "--release"], [], none, some "--release", none, false⟩) := by
  refine ⟨?_, ?_, ?_, rfl, rfl⟩
  · intro canon st t rest hf hbn
    obtain ⟨mp, bn, tg, rl, ca, ra, fl⟩ := st
    cases hf
    cases hbn
    exact step_bin_cons canon mp tg rl ca ra t rest
  · intro canon st t rest hf htg
    obtain ⟨mp, bn, tg, rl, ca, ra, fl⟩ := st
    cases hf
    cases htg
    exact step_target_cons canon mp bn rl ca ra t rest
  · intro canon st t p rest hf hmp hp
    obtain ⟨mp, bn, tg, rl, ca, ra, fl⟩ := st
    cases hf
    cases hmp
    exact step_manifest_cons canon bn tg rl ca ra t p rest hp

/-- C9 witness: unconditional value consumption at a concrete input. -/
theorem space_form_unconditional_value_witness :
    scanList some initState ["--bin", "--"] =
      scanList some { initState with bin_name := some "--",
                                     cargo_args := initState.cargo_args ++ ["--bin", "--"] } [] :=
  space_form_unconditional_value.1 some initState "--" [] rfl rfl

/-- C10: a successful `set_target` changes only the `target` field and
appends exactly `--target value` at the end of `cargo_args`, preserving the
existing prefix and every other field; symmetrically a successful
`set_bin_name` changes only `bin_name` and appends `--bin value`. -/
theorem mutator_frame :
    (∀ (a a2 : Args) (v : String), set_target a v = .ok a2 →
        a2.target = some v ∧ a2.cargo_args = a.cargo_args ++ ["--target", v] ∧
        a2.run_args = a.run_args ∧ a2.bin_name = a.bin_name ∧
        a2.manifest_path = a.manifest_path ∧ a2.release = a.release) ∧
    (∀ (a a2 : Args) (v : String), set_bin_name a v = .ok a2 →
        a2.bin_name = some v ∧ a2.cargo_args = a.cargo_args ++ ["--bin", v] ∧
        a2.run_args = a.run_args ∧ a2.target = a.target ∧
        a2.manifest_path = a.manifest_path ∧ a2.release = a.release) := by
  constructor
  · intro a a2 v h
    cases ht : a.target with
    | some x => simp [set_target, ht] at h
    | none =>
      simp [set_target, ht] at h
      subst h
      simp
  · intro a a2 v h
    cases hb : a.bin_name with
    | some x => simp [set_bin_name, hb] at h
    | none =>
      simp [set_bin_name, hb] at h
      subst h
      simp

/-- C10 witness: the frame property at a concrete input. -/
theorem mutator_frame_witness :
    (⟨["x", "--target", "v"], ["y"], none, none, some "v", false⟩ : Args).target = some "v" ∧
    (⟨["x", "--target", "v"], ["y"], none, none, some "v", false⟩ : Args).cargo_args =
      (⟨["x"], ["y"], none, none, none, false⟩ : Args).cargo_args ++ ["--target", "v"] ∧
    (⟨["x", "--target", "v"], ["y"], none, none, some "v", false⟩ : Args).run_args =
      (⟨["x"], ["y"], none, none, none, false⟩ : Args).run_args ∧
    (⟨["x", "--target", "v"], ["y"], none, none, some "v", false⟩ : Args).bin_name =
      (⟨["x"], ["y"], none, none, none, false⟩ : Args).bin_name ∧
    (⟨["x", "--target", "v"], ["y"], none, none, some "v", false⟩ : Args).manifest_path =
      (⟨["x"], ["y"], none, none, none, false⟩ : Args).manifest_path ∧
    (⟨["x", "--target", "v"], ["y"], none, none, some "v", false⟩ : Args).release =
      (⟨["x"], ["y"], none, none, none, false⟩ : Args).release :=
  mutator_frame.1 ⟨["x"], ["y"], none, none, none, false⟩
    ⟨["x", "--target", "v"], ["y"], none, none, some "v", false⟩ "v" rfl

/-- C2: whenever the scan (not yet forwarding run arguments) meets a token
addressing `--bin`, `--target` or `--manifest-path` — in either the bare or
the `--opt=value` spelling — while that option's slot is already filled, the
parse fails fatally with `DuplicateOption`; in particular
`parse(["build","--bin","a","--bin","b"])` is a fatal `DuplicateOption`. -/
theorem duplicate_option_fatal :
    (∀ (canon : String → Option String) (st : ScanState) (k : OptKind) (t v : String)
        (suf : List String),
        (∀ s, (canon s).isSome = true) → st.run_args_started = false →
        slotOf st k = some v → isOptTok k t = true →
        scanList canon st (t :: suf) = .error .DuplicateOption) ∧
    parse_args some ["build", "--bin", "a", "--bin", "b"] = .error .DuplicateOption := by
  refine ⟨?_, rfl⟩
  intro canon st k t v suf hcanon hf hslot htok
  obtain ⟨mp, bn, tg, rl, ca, ra, fl⟩ := st
  cases hf
  cases k with
  | bin =>
    simp only [slotOf] at hslot
    subst hslot
    simp only [isOptTok, Bool.or_eq_true, beq_iff_eq] at htok
    rcases htok with rfl | hsw
    · exact step_bin_dup canon mp tg rl ca ra v suf
    · exact step_bineq_dup canon mp tg rl ca ra t v hsw suf
  | target =>
    simp only [slotOf] at hslot
    subst hslot
    simp only [isOptTok, Bool.or_eq_true, beq_iff_eq] at htok
    rcases htok with rfl | hsw
    · exact step_target_dup canon mp bn rl ca ra v suf
    · exact step_targeteq_dup canon mp bn rl ca ra t v hsw suf
  | manifest =>
    simp only [slotOf] at hslot
    subst hslot
    simp only [isOptTok, Bool.or_eq_true, beq_iff_eq] at htok
    rcases htok with rfl | hsw
    · exact step_manifest_dup canon bn tg rl ca ra v suf hcanon
    · obtain ⟨p, hp⟩ := Option.isSome_iff_exists.mp
        (hcanon (trim_left_matches "--manifest-path=" t))
      exact step_manifesteq_dup canon bn tg rl ca ra t v p hsw hp suf

/-- C2 witness: the duplicate `--bin` failure at a concrete scan state. -/
theorem duplicate_option_fatal_witness :
    scanList some ⟨none, some "a", none, none, ["--bin", "a"], [], false⟩ ["--bin", "b"] =
      .error .DuplicateOption :=
  duplicate_option_fatal.1 some ⟨none, some "a", none, none, ["--bin", "a"], [], false⟩
    .bin "--bin" "a" ["b"] (fun _ => rfl) rfl rfl (by decide)

/-- C7: an empty vector or an unrecognized first token yields `NoSubcommand`;
a first token `--help`/`-h` yields `Help` and `--version` yields `Version`;
and a `--help`/`-h` token met by the build-argument scan before any `--`
aborts immediately, which surfaces as `BuildHelp` under `build`, `RunHelp`
under `run` and `TestHelp` under `test`, discarding all other tokens. -/
theorem classification_and_help :
    (∀ (canon : String → Option String), parse_args canon [] = .ok .NoSubcommand) ∧
    (∀ (canon : String → Option String) (t : String) (rest : List String),
        t ≠ "build" → t ≠ "run" → t ≠ "test" → t ≠ "--help" → t ≠ "-h" → t ≠ "--version" →
        parse_args canon (t :: rest) = .ok .NoSubcommand) ∧
    (∀ (canon : String → Option String) (rest : List String),
        parse_args canon ("--help" :: rest) = .ok .Help) ∧
    (∀ (canon : String → Option String) (rest : List String),
        parse_args canon ("-h" :: rest) = .ok .Help) ∧
    (∀ (canon : String → Option String) (rest : List String),
        parse_args canon ("--version" :: rest) = .ok .Version) ∧
    (∀ (canon : String → Option String) (st : ScanState) (suf : List String),
        st.run_args_started = false →
        scanList canon st ("--help" :: suf) = .ok (.abort .BuildHelp) ∧
        scanList canon st ("-h" :: suf) = .ok (.abort .BuildHelp)) ∧
    (∀ (canon : String → Option String) (l : List String),
        parse_build_args canon l = .ok .BuildHelp →
        parse_args canon ("build" :: l) = .ok .BuildHelp ∧
        parse_args canon ("run" :: l) = .ok .RunHelp ∧
        parse_args canon ("test" :: l) = .ok .TestHelp) ∧
    parse_args some ["build", "--help"] = .ok .BuildHelp ∧
    parse_args some ["run", "x", "--help", "y"] = .ok .RunHelp ∧
    parse_args some ["test", "--help"] = .ok .TestHelp := by
  refine ⟨fun canon => rfl, ?_, ?_, ?_, ?_, ?_, ?_, rfl, rfl, rfl⟩
  · intro canon t rest h1 h2 h3 h4 h5 h6
    simp [parse_args, h1, h2, h3, h4, h5, h6]
  · intro canon rest
    simp [parse_args]
  · intro canon rest
    simp [parse_args]
  · intro canon rest
    simp [parse_args]
  · intro canon st suf hf
    obtain ⟨mp, bn, tg, rl, ca, ra, fl⟩ := st
    cases hf
    exact ⟨step_help canon mp bn tg rl ca ra suf, step_h canon mp bn tg rl ca ra suf⟩
  · intro canon l hpb
    refine ⟨?_, ?_, ?_⟩ <;> simp [parse_args, hpb]

/-- C7 witness: classification at concrete inputs. -/
theorem classification_and_help_witness :
    parse_args some ["xyz", "--help"] = .ok .NoSubcommand ∧
    scanList some initState ["--help", "a"] = .ok (.abort .BuildHelp) :=
  ⟨classification_and_help.2.1 some "xyz" ["--help"] (by decide) (by decide) (by decide)
      (by decide) (by decide) (by decide),
   (classification_and_help.2.2.2.2.2.1 some initState ["a"] rfl).1⟩

/-- C4 counterexample: streams without duplicated `--bin`/`--target`/
`--manifest-path` on which the claim still fails: a `--help` discards the
collected tokens, a second `--release` and a failed canonicalisation are
fatal, and a token after `--` goes to `run_args`, not `cargo_args`. -/
theorem pass_through_cex :
    parse_args some ["build", "x", "--help"] = .ok .BuildHelp ∧
    parse_args some ["build", "--release", "--release", "x"] = .error .DuplicateOption ∧
    parse_args (fun _ => none) ["build", "--manifest-path", "p", "x"] =
      .error .InvalidPath ∧
    parse_args some ["build", "--", "x"] =
      .ok (.Build ⟨[], ["x"], none, none, none, false⟩) := ⟨rfl, rfl, rfl, rfl⟩

/-- C4 (amended): for every token stream containing no `--help`/`-h`/
`--version` token and no `--` token, in which each of `--bin`, `--target`,
`--manifest-path` and additionally `--release` is addressed at most once and
every `--manifest-path` value canonicalises, the build parse succeeds with a
`Build` result whose `cargo_args` is the entire stream — hence every
unrecognized token appears in `cargo_args` in original order and form. -/
theorem pass_through_success :
    ∀ (canon : String → Option String) (l : List String),
      (∀ s, (canon s).isSome = true) →
      (∀ t ∈ l, t ≠ "--help" ∧ t ≠ "-h" ∧ t ≠ "--version" ∧ t ≠ "--") →
      nOcc .bin l ≤ 1 → nOcc .target l ≤ 1 → nOcc .manifest l ≤ 1 → nRel l ≤ 1 →
      ∃ args : Args, parse_args canon ("build" :: l) = .ok (.Build args) ∧
        args.cargo_args = l := by
  intro canon l hcanon hns hb ht hm hr
  obtain ⟨st', hs, hc⟩ := scan_success canon hcanon l.length l none none none none [] []
    le_rfl hns (by simpa using hb) (by simpa using ht) (by simpa using hm) (by simpa using hr)
  refine ⟨mkArgs st', ?_, by simpa using hc⟩
  simp [parse_args, parse_build_args, initState, hs]

/-- C4 witness: the amended pass-through property at a concrete input. -/
theorem pass_through_success_witness :
    ∃ args : Args, parse_args some ("build" :: ["--bin", "a", "x"]) = .ok (.Build args) ∧
      args.cargo_args = ["--bin", "a", "x"] :=
  pass_through_success some ["--bin", "a", "x"] (fun _ => rfl) (by decide) (by decide)
    (by decide) (by decide) (by decide)

end Bootimage
